import Mathlib

/-!
Verification of vtcode behaviors: a shallow embedding of the OpenRouter
stream decoder, the tool-policy constraint pass, the context curator's
phase detection, the Zed ACP agent's prompt loop and read_file payload,
and the TUI scroll adjustment, with theorems settling the frozen claims.
-/

set_option maxHeartbeats 1000000

/-- JSON values, modelling `serde_json::Value`. Numbers are modelled as
integers (`as_u64` fails on negatives); floating-point numbers are not
modelled, no claim depends on them. Objects are association lists in
insertion order. -/
inductive Json where
  | null
  | bool (b : Bool)
  | num (n : Int)
  | str (s : String)
  | arr (items : List Json)
  | obj (fields : List (String × Json))
deriving Repr

/-- Lookup in a JSON object map, modelling `serde_json::Map::get`. -/
def jLookup : List (String × Json) → String → Option Json
  | [], _ => none
  | (k, v) :: rest, key => if k = key then some v else jLookup rest key

/-- Insert into a JSON object map, modelling `serde_json::Map::insert`:
replaces the value of an existing key in place, otherwise appends. -/
def jInsert : List (String × Json) → String → Json → List (String × Json)
  | [], key, val => [(key, val)]
  | (k, v) :: rest, key, val =>
    if k = key then (k, val) :: rest else (k, v) :: jInsert rest key val

/-- Modelling `Value::get(key)`: field lookup, `none` on non-objects. -/
def Json.getField : Json → String → Option Json
  | .obj fields, key => jLookup fields key
  | _, _ => none

/-- Modelling `Value::as_str`. -/
def Json.asStr : Json → Option String
  | .str s => some s
  | _ => none

/-- Modelling `Value::as_u64` on the integer fragment. -/
def Json.asU64 : Json → Option Nat
  | .num n => if 0 ≤ n then some n.toNat else none
  | _ => none

/-- Minimal JSON string escaping (quote and backslash), standing in for
serde's serializer in `Value::to_string`; no claim exercises other escapes. -/
def escapeJsonChars : List Char → String
  | [] => ""
  | c :: cs =>
    (if c = '"' then "\\\"" else if c = '\\' then "\\\\" else String.singleton c)
      ++ escapeJsonChars cs

mutual

/-- Modelling `Value::to_string` (compact JSON serialization). -/
def Json.render : Json → String
  | .null => "null"
  | .bool b => if b then "true" else "false"
  | .num n => toString n
  | .str s => "\"" ++ escapeJsonChars s.data ++ "\""
  | .arr items => "[" ++ Json.renderItems items ++ "]"
  | .obj fields => "\x7b" ++ Json.renderFields fields ++ "\x7d"

/-- Comma-joined rendering of array elements. -/
def Json.renderItems : List Json → String
  | [] => ""
  | [x] => Json.render x
  | x :: y :: rest => Json.render x ++ "," ++ Json.renderItems (y :: rest)

/-- Comma-joined rendering of object fields. -/
def Json.renderFields : List (String × Json) → String
  | [] => ""
  | [(k, v)] => "\"" ++ escapeJsonChars k.data ++ "\":" ++ Json.render v
  | (k, v) :: f :: rest =>
    "\"" ++ escapeJsonChars k.data ++ "\":" ++ Json.render v ++ ","
      ++ Json.renderFields (f :: rest)

end

/-! Embedding of `vtcode-core/src/llm/providers/openrouter.rs`. -/

/-- A function-type tool call, modelling `ToolCall::function(id, name, arguments)`
from the provider types. -/
structure ToolCall where
  id : String
  name : String
  arguments : String
deriving Repr, DecidableEq

/-- Modelling `ToolCallBuilder` (openrouter.rs lines 18-23). -/
structure ToolCallBuilder where
  id : Option String := none
  name : Option String := none
  arguments : String := ""
deriving Repr, DecidableEq

/-- Modelling `ToolCallBuilder::default()`. -/
def ToolCallBuilder.empty : ToolCallBuilder := { id := none, name := none, arguments := "" }

/-- Modelling `ToolCallBuilder::finalize` (openrouter.rs lines 26-37): the
builder yields a call iff `name` was set; `id` falls back to
`tool_call_<index>`; empty accumulated arguments become `"\x7b\x7d"`. -/
def ToolCallBuilder.finalize (b : ToolCallBuilder) (fallback_index : Nat) : Option ToolCall :=
  match b.name with
  | none => none
  | some name =>
    let id := match b.id with
      | some id => id
      | none => "tool_call_" ++ toString fallback_index
    let arguments := if b.arguments = "" then "\x7b\x7d" else b.arguments
    some { id := id, name := name, arguments := arguments }

/-- Modelling the per-delta builder mutation inside `update_tool_calls`
(openrouter.rs lines 49-65). -/
def applyToolCallDelta (b : ToolCallBuilder) (delta : Json) : ToolCallBuilder :=
  let b := match (delta.getField "id").bind Json.asStr with
    | some id => { b with id := some id }
    | none => b
  match delta.getField "function" with
  | none => b
  | some fn =>
    let b := match (fn.getField "name").bind Json.asStr with
      | some name => { b with name := some name }
      | none => b
    match fn.getField "arguments" with
    | none => b
    | some (.str s) => { b with arguments := b.arguments ++ s }
    | some (.obj fields) => { b with arguments := b.arguments ++ (Json.obj fields).render }
    | some (.arr items) => { b with arguments := b.arguments ++ (Json.arr items).render }
    | some _ => b

/-- Modelling `update_tool_calls` (openrouter.rs lines 40-67): deltas are
applied positionally; missing builders are pushed as defaults. -/
def update_tool_calls (builders : List ToolCallBuilder) (deltas : List Json) : List ToolCallBuilder :=
  (deltas.enum).foldl
    (fun bs p =>
      let bs := if bs.length ≤ p.1 then bs ++ [ToolCallBuilder.empty] else bs
      bs.set p.1 (applyToolCallDelta (bs.getD p.1 ToolCallBuilder.empty) p.2))
    builders

/-- Modelling `finalize_tool_calls` (openrouter.rs lines 69-77). -/
def finalize_tool_calls (builders : List ToolCallBuilder) : Option (List ToolCall) :=
  let calls := (builders.enum).filterMap (fun p => p.2.finalize p.1)
  if calls.isEmpty then none else some calls

/-- Modelling `StreamFragment` (openrouter.rs lines 79-83). -/
inductive StreamFragment where
  | content (text : String)
  | reasoning (text : String)
deriving Repr, DecidableEq

/-- Modelling `StreamDelta` (openrouter.rs lines 85-88). -/
structure StreamDelta where
  fragments : List StreamFragment := []
deriving Repr, DecidableEq

/-- Modelling `StreamDelta::push_content` (openrouter.rs lines 91-102):
empty text is dropped, adjacent content fragments are merged. -/
def StreamDelta.push_content (d : StreamDelta) (text : String) : StreamDelta :=
  if text = "" then d
  else
    match d.fragments.getLast? with
    | some (.content existing) => ⟨d.fragments.dropLast ++ [.content (existing ++ text)]⟩
    | _ => ⟨d.fragments ++ [.content text]⟩

/-- Modelling `StreamDelta::push_reasoning` (openrouter.rs lines 104-115). -/
def StreamDelta.push_reasoning (d : StreamDelta) (text : String) : StreamDelta :=
  if text = "" then d
  else
    match d.fragments.getLast? with
    | some (.reasoning existing) => ⟨d.fragments.dropLast ++ [.reasoning (existing ++ text)]⟩
    | _ => ⟨d.fragments ++ [.reasoning text]⟩

/-- Modelling `FinishReason` from the provider types. -/
inductive FinishReason where
  | stop
  | tool_calls
  | length
  | content_filter
  | error (message : String)
deriving Repr, DecidableEq

/-- Modelling `LLMResponse` restricted to the fields the prompt loop reads. -/
structure LLMResponse where
  content : Option String
  reasoning : Option String
  finish_reason : FinishReason
deriving Repr, DecidableEq

/-- Modelling `LLMStreamEvent` from the provider types. -/
inductive LLMStreamEvent where
  | token (delta : String)
  | reasoning (delta : String)
  | completed (response : LLMResponse)
deriving Repr, DecidableEq

/-- Modelling the yield loop over `delta.into_fragments()` in
`OpenRouterProvider::stream` (openrouter.rs lines 1948-1958): non-empty
content fragments become `Token` events, non-empty reasoning fragments
become `Reasoning` events, empty fragments are skipped. -/
def emitStreamFragments (frags : List StreamFragment) : List LLMStreamEvent :=
  frags.filterMap fun f =>
    match f with
    | .content text => if text ≠ "" then some (.token text) else none
    | .reasoning text => if text ≠ "" then some (.reasoning text) else none

/-- Modelling `str::to_lowercase` on the ASCII fragment (`Char.toLower`
folds exactly ASCII letters); all strings the claims exercise are ASCII. -/
def strToLower (s : String) : String := ⟨s.data.map Char.toLower⟩

/-- Modelling `str::ends_with` with a string pattern. -/
def strEndsWith (s suffix : String) : Bool := decide (suffix.data <:+ s.data)

/-- Modelling `str::starts_with` with a string pattern. -/
def strStartsWith (s pre : String) : Bool := decide (pre.data <+: s.data)

/-- Modelling `str::trim`: drop leading and trailing whitespace. -/
def strTrim (s : String) : String :=
  ⟨((s.data.dropWhile Char.isWhitespace).reverse.dropWhile Char.isWhitespace).reverse⟩

/-! Embedding of `vtcode-core/src/tools/registry/policy.rs`. -/

/-- Modelled from the spec: the tool name constants from `tools` in
`config/constants.rs`, a module absent from the sources; the spec fixes the
mapping for `list_files`, `grep_search`, `read_file` and `curl`. -/
def tools.LIST_FILES : String := "list_files"

/-- Modelled from the spec: see `tools.LIST_FILES`. -/
def tools.GREP_SEARCH : String := "grep_search"

/-- Modelled from the spec: see `tools.LIST_FILES`. -/
def tools.READ_FILE : String := "read_file"

/-- Modelled from the spec: see `tools.LIST_FILES`. -/
def tools.CURL : String := "curl"

/-- The per-tool constraint record, with exactly the fields
`apply_policy_constraints` reads (the defining module `tool_policy` is
absent from the sources; field names and types as used in policy.rs). -/
structure ToolConstraints where
  default_response_format : Option String := none
  allowed_modes : Option (List String) := none
  max_items_per_call : Option Nat := none
  max_results_per_call : Option Nat := none
  max_bytes_per_read : Option Nat := none
  max_response_bytes : Option Nat := none
  allowed_url_schemes : Option (List String) := none
  denied_url_hosts : Option (List String) := none
deriving Repr

/-- A parsed URL reduced to the two components policy.rs reads:
`Url::scheme()` and `Url::host_str()`. Parsing itself is done by the
external `url` crate and is passed in as an oracle. -/
structure ParsedUrl where
  scheme : String
  host : Option String
deriving Repr, DecidableEq

/-- Modelling `str::eq_ignore_ascii_case` (both sides are case-folded only
on ASCII letters, which is also what `Char.toLower` does). -/
def eqIgnoreAsciiCase (a b : String) : Bool := strToLower a = strToLower b

/-- Modelling the numeric-cap block repeated per tool in
`apply_policy_constraints` (policy.rs lines 51-109): the requested value is
read with `as_u64` (defaulting to the cap) and replaced, with a
`_policy_note`, only when it exceeds the cap. -/
def capNumericArg (fields : List (String × Json)) (key : String) (cap : Nat)
    (note : String) : List (String × Json) :=
  let requested := ((jLookup fields key).bind Json.asU64).getD cap
  if requested > cap then
    jInsert (jInsert fields key (.num cap)) "_policy_note" (.str note)
  else fields

/-- Modelling the `denied_url_hosts` membership test (policy.rs lines
137-145): each pattern is lowercased; a pattern starting with `.` matches
as suffix of the lowercased host, a bare pattern matches the host exactly
or as a dotted suffix. -/
def hostBlocked (denied_hosts : List String) (lowered : String) : Bool :=
  denied_hosts.any fun pattern =>
    let normalized := strToLower pattern
    if strStartsWith normalized "." then strEndsWith lowered normalized
    else lowered = normalized || strEndsWith lowered ("." ++ normalized)

/-- Modelling the curl URL checks in `apply_policy_constraints`
(policy.rs lines 111-152), after a `ParsedUrl` has been obtained. -/
def checkCurlUrl (constraints : ToolConstraints) (url_value : String)
    (parsed : ParsedUrl) (fields : List (String × Json)) : Except String Json :=
  match constraints.allowed_url_schemes with
  | some allowed =>
    if !(allowed.any (fun candidate => eqIgnoreAsciiCase candidate parsed.scheme)) then
      .error ("Scheme '" ++ parsed.scheme ++ "' is not allowed for curl tool. Allowed schemes: "
        ++ String.intercalate ", " allowed)
    else checkCurlDeniedHosts constraints url_value parsed fields
  | none => checkCurlDeniedHosts constraints url_value parsed fields
where
  /-- The `denied_url_hosts` arm (policy.rs lines 133-152). -/
  checkCurlDeniedHosts (constraints : ToolConstraints) (_url_value : String)
      (parsed : ParsedUrl) (fields : List (String × Json)) : Except String Json :=
    match constraints.denied_url_hosts, parsed.host with
    | some denied_hosts, some host_str =>
      if hostBlocked denied_hosts (strToLower host_str) then
        .error ("URL host '" ++ host_str ++ "' is blocked by policy")
      else .ok (.obj fields)
    | _, _ => .ok (.obj fields)

/-- Modelling `ToolRegistry::apply_policy_constraints` (policy.rs lines
23-158). `constraints` is the result of `get_constraints(name)`; `parseUrl`
stands in for `reqwest::Url::parse` (the parse-error text, which interpolates
the library error, is modelled without that suffix). -/
def apply_policy_constraints (constraints : Option ToolConstraints)
    (parseUrl : String → Option ParsedUrl) (name : String) (args : Json) :
    Except String Json :=
  match constraints with
  | none => .ok args
  | some c =>
    match args with
    | .obj fields0 =>
      let fields := match c.default_response_format with
        | some fmt =>
          if (jLookup fields0 "response_format").isNone
          then jInsert fields0 "response_format" (.str fmt)
          else fields0
        | none => fields0
      let modeRejected : Bool :=
        match c.allowed_modes, (jLookup fields "mode").bind Json.asStr with
        | some allowed, some mode => !(allowed.any (fun m => m == mode))
        | _, _ => false
      if modeRejected then
        .error ("Mode '" ++ (((jLookup fields "mode").bind Json.asStr).getD "")
          ++ "' not allowed by policy for '" ++ name ++ "'. Allowed: "
          ++ String.intercalate ", " (c.allowed_modes.getD []))
      else if name = tools.LIST_FILES then
        match c.max_items_per_call with
        | some cap =>
          .ok (.obj (capNumericArg fields "max_items" cap
            ("Capped max_items to " ++ toString cap ++ " by policy")))
        | none => .ok (.obj fields)
      else if name = tools.GREP_SEARCH then
        match c.max_results_per_call with
        | some cap =>
          .ok (.obj (capNumericArg fields "max_results" cap
            ("Capped max_results to " ++ toString cap ++ " by policy")))
        | none => .ok (.obj fields)
      else if name = tools.READ_FILE then
        match c.max_bytes_per_read with
        | some cap =>
          .ok (.obj (capNumericArg fields "max_bytes" cap
            ("Capped max_bytes to " ++ toString cap ++ " by policy")))
        | none => .ok (.obj fields)
      else if name = tools.CURL then
        let fields := match c.max_response_bytes with
          | some cap =>
            capNumericArg fields "max_bytes" cap
              ("Capped max_bytes to " ++ toString cap ++ " bytes by policy")
          | none => fields
        match (jLookup fields "url").bind Json.asStr with
        | none => .error "curl tool requires a 'url' parameter"
        | some url_value =>
          match parseUrl url_value with
          | none => .error ("Invalid URL '" ++ url_value ++ "'")
          | some parsed => checkCurlUrl c url_value parsed fields
      else .ok (.obj fields)
    | _ => .error "Error: tool arguments must be an object"

/-! Embedding of `vtcode-core/src/core/context_curator.rs`. -/

/-- Modelling `ConversationPhase` (context_curator.rs lines 18-29). -/
inductive ConversationPhase where
  | exploration
  | implementation
  | validation
  | debugging
  | unknown
deriving Repr, DecidableEq

/-- Modelling `ErrorContext` (context_curator.rs lines 38-44); the
`SystemTime` timestamp is not modelled, nothing reads it here. -/
structure ErrorContext where
  error_message : String
  tool_name : Option String := none
  resolution : Option String := none
deriving Repr

/-- Modelling the curator's `Message` (context_curator.rs lines 63-68). -/
structure CuratorMessage where
  role : String
  content : String
  estimated_tokens : Nat
deriving Repr

/-- Modelling `str::contains` (substring search). -/
def strContains (s pat : String) : Bool := decide (pat.data <:+: s.data)

/-- The keyword heuristic over the last message's lowercased content
(context_curator.rs lines 224-251). -/
def keyword_phase (messages : List CuratorMessage) : ConversationPhase :=
  match messages.getLast? with
  | some recent =>
    let content_lower := strToLower recent.content
    if strContains content_lower "search" || strContains content_lower "find"
        || strContains content_lower "list" then
      .exploration
    else if strContains content_lower "edit" || strContains content_lower "write"
        || strContains content_lower "create" || strContains content_lower "modify" then
      .implementation
    else if strContains content_lower "test" || strContains content_lower "run"
        || strContains content_lower "check" || strContains content_lower "verify" then
      .validation
    else if strContains content_lower "error" || strContains content_lower "fix"
        || strContains content_lower "debug" then
      .debugging
    else .unknown
  | none => .unknown

/-- Modelling `ContextCurator::detect_phase` (context_curator.rs lines
221-263) as a function of the message list, the `recent_errors` queue and
the current phase; it returns the phase that is also stored back. -/
def detect_phase (messages : List CuratorMessage) (recent_errors : List ErrorContext)
    (current_phase : ConversationPhase) : ConversationPhase :=
  let detected := keyword_phase messages
  let detected :=
    if detected = .unknown && !recent_errors.isEmpty then .debugging else detected
  if detected = .unknown then current_phase else detected

/-! Embedding of `src/acp/zed.rs`. -/

/-- Modelling the constant `MAX_TOOL_RESPONSE_CHARS` (zed.rs line 50). -/
def MAX_TOOL_RESPONSE_CHARS : Nat := 32768

/-- Modelling `ZedAgent::truncate_text` (zed.rs lines 410-417): counts
characters (Unicode scalar values) and keeps the first
`MAX_TOOL_RESPONSE_CHARS` of them, flagging whether truncation happened. -/
def truncate_text (input : String) : String × Bool :=
  if input.data.length ≤ MAX_TOOL_RESPONSE_CHARS then (input, false)
  else (⟨input.data.take MAX_TOOL_RESPONSE_CHARS⟩, true)

/-- The three derived pieces `run_read_file` builds from the file content
(zed.rs lines 719-731): the `ToolCallContent` text sent to the client, and
the `content` and `truncated` fields of the success payload. -/
structure ReadFileParts where
  tool_content : String
  payload_content : String
  payload_truncated : Bool
deriving Repr, DecidableEq

/-- Modelling the content-assembly part of `ZedAgent::run_read_file`
(zed.rs lines 719-731). -/
def read_file_parts (content : String) : ReadFileParts :=
  let r := truncate_text content
  { tool_content := r.1 ++ (if r.2 then "\n\n[truncated]" else "")
    payload_content := r.1
    payload_truncated := r.2 }

/-- Modelling `acp::StopReason` restricted to the variants the prompt path
produces. -/
inductive StopReason where
  | end_turn
  | max_tokens
  | refusal
  | cancelled
deriving Repr, DecidableEq

/-- Modelling `ZedAgent::stop_reason_from_finish` (zed.rs lines 382-388). -/
def stop_reason_from_finish : FinishReason → StopReason
  | .stop => .end_turn
  | .tool_calls => .end_turn
  | .length => .max_tokens
  | .content_filter => .refusal
  | .error _ => .refusal

/-- Modelling the `SessionUpdate` variants the streaming prompt branch
emits. -/
inductive SessionUpdate where
  | agent_message_chunk (content : String)
  | agent_thought_chunk (content : String)
deriving Repr, DecidableEq

/-- True on `completed` events, modelling the `LLMStreamEvent::Completed`
match arm reachability. -/
def LLMStreamEvent.isCompleted : LLMStreamEvent → Bool
  | .completed _ => true
  | _ => false

/-- Modelling the streaming event loop of `ZedAgent::prompt` (zed.rs lines
1082-1146). `cancel i` is the value `session.cancel_flag.get()` reads when
the i-th event has arrived; the loop state is the accumulated assistant
message and the updates sent so far; a run ends with the updates, the stop
reason and the assistant message. The stream exhausting without a
`Completed` event leaves the initial `EndTurn` (zed.rs line 1014). -/
def prompt_stream_loop (cancel : Nat → Bool) :
    List LLMStreamEvent → Nat → String → List SessionUpdate →
    List SessionUpdate × StopReason × String
  | [], _, assistant_message, updates => (updates, .end_turn, assistant_message)
  | e :: rest, i, assistant_message, updates =>
    if cancel i then (updates, .cancelled, assistant_message)
    else
      match e with
      | .token delta =>
        if delta ≠ "" then
          prompt_stream_loop cancel rest (i + 1) (assistant_message ++ delta)
            (updates ++ [.agent_message_chunk delta])
        else prompt_stream_loop cancel rest (i + 1) assistant_message updates
      | .reasoning delta =>
        if delta ≠ "" then
          prompt_stream_loop cancel rest (i + 1) assistant_message
            (updates ++ [.agent_thought_chunk delta])
        else prompt_stream_loop cancel rest (i + 1) assistant_message updates
      | .completed response =>
        let (assistant_message, updates) :=
          if assistant_message = "" then
            match response.content with
            | some content =>
              (assistant_message ++ content,
                if content ≠ "" then updates ++ [.agent_message_chunk content] else updates)
            | none => (assistant_message, updates)
          else (assistant_message, updates)
        let updates :=
          match response.reasoning with
          | some r => if r ≠ "" then updates ++ [.agent_thought_chunk r] else updates
          | none => updates
        (updates, stop_reason_from_finish response.finish_reason, assistant_message)

/-- The outcome of the streaming branch of `prompt`: the updates sent, the
stop reason of the `PromptResponse`, the final accumulated assistant text,
and whether it was appended to the session history (zed.rs lines
1225-1227). -/
structure PromptOutcome where
  updates : List SessionUpdate
  stop_reason : StopReason
  assistant_message : String
  appended_to_history : Bool
deriving Repr, DecidableEq

/-- Modelling the streaming branch of `ZedAgent::prompt` end to end: run
the event loop from the initial state (zed.rs lines 1014-1015), then append
the assistant message to history iff the turn was not cancelled and the
text is non-empty (zed.rs lines 1225-1227). -/
def prompt_streaming (cancel : Nat → Bool) (events : List LLMStreamEvent) : PromptOutcome :=
  let r := prompt_stream_loop cancel events 0 "" []
  { updates := r.1
    stop_reason := r.2.1
    assistant_message := r.2.2
    appended_to_history := r.2.1 ≠ .cancelled && r.2.2 ≠ "" }

/-! Embedding of `vtcode-core/src/ui/tui/session.rs` scroll logic. -/

/-- Modelling the `max_offset` computation in `ensure_scroll_metrics`
(session.rs line 2287): `total_rows.saturating_sub(viewport_rows)`. -/
def max_scroll_offset_of (total_rows viewport_rows : Nat) : Nat :=
  total_rows - viewport_rows

/-- Modelling `Session::enforce_scroll_bounds` (session.rs lines
2258-2263), as a function of the offset and the current max offset. -/
def enforce_scroll_bounds (scroll_offset max_offset : Nat) : Nat :=
  if scroll_offset > max_offset then max_offset else scroll_offset

/-- Modelling the branch structure of `Session::adjust_scroll_after_change`
(session.rs lines 2526-2535), with `enforce_scroll_bounds` applied at the
new max offset. -/
def adjust_scroll_after_change (scroll_offset previous_max_offset new_max_offset : Nat) : Nat :=
  enforce_scroll_bounds
    (if scroll_offset ≥ previous_max_offset ∧ new_max_offset > previous_max_offset then
      new_max_offset
    else if scroll_offset > 0 ∧ new_max_offset > previous_max_offset then
      min (scroll_offset + (new_max_offset - previous_max_offset)) new_max_offset
    else scroll_offset)
    new_max_offset

/-! Embedding of `ReasoningBuffer` (openrouter.rs lines 130-214). -/

/-- Modelling `str::split_whitespace` on a character list: maximal runs of
non-whitespace characters, in order; `acc` holds the current run reversed. -/
def splitWsAux : List Char → List Char → List (List Char)
  | [], acc => if acc.isEmpty then [] else [acc.reverse]
  | c :: cs, acc =>
    if c.isWhitespace then
      if acc.isEmpty then splitWsAux cs [] else acc.reverse :: splitWsAux cs []
    else splitWsAux cs (c :: acc)

/-- The words of a character list, modelling `chunk.split_whitespace()`. -/
def splitWs (cs : List Char) : List (List Char) := splitWsAux cs []

/-- Joining words with single spaces, modelling the accumulation loop in
`ReasoningBuffer::normalize_chunk` (openrouter.rs lines 188-197). -/
def joinSpaceParts : List (List Char) → List Char
  | [] => []
  | [p] => p
  | p :: q :: rest => p ++ ' ' :: joinSpaceParts (q :: rest)

/-- Modelling `ReasoningBuffer::normalize_chunk`: internal whitespace runs
collapse to single spaces, outer whitespace is dropped. -/
def normalize_chunk (chunk : String) : String :=
  ⟨joinSpaceParts (splitWs chunk.data)⟩

/-- Modelling `self.text.ends_with(' ') || self.text.ends_with('\n')`
(openrouter.rs line 152); `ends_with` with a `char` pattern tests the last
character. -/
def last_has_spacing (text : String) : Bool :=
  match text.data.getLast? with
  | some c => c = ' ' || c = '\n'
  | none => false

/-- Modelling `chunk.chars().next().map(is_whitespace).unwrap_or(false)`
(openrouter.rs lines 153-157). -/
def chunk_starts_with_space (chunk : String) : Bool :=
  match chunk.data.head? with
  | some c => c.isWhitespace
  | none => false

/-- Modelling `ReasoningBuffer::is_leading_punctuation` (openrouter.rs
lines 199-205): the first non-whitespace character, if any, is one of
`, . ! ? : ; ) ] \x7d`. -/
def is_leading_punctuation (chunk : String) : Bool :=
  match chunk.data.find? (fun c => !c.isWhitespace) with
  | some c =>
    c = ',' || c = '.' || c = '!' || c = '?' || c = ':' || c = ';'
      || c = ')' || c = ']' || c = Char.ofNat 125
  | none => false

/-- Modelling `ReasoningBuffer::ends_with_connector` (openrouter.rs lines
207-213): the last non-whitespace character, if any, is one of
`( [ \x7b / -`. -/
def ends_with_connector (text : String) : Bool :=
  match text.data.reverse.find? (fun c => !c.isWhitespace) with
  | some c => c = '(' || c = '[' || c = Char.ofNat 123 || c = '/' || c = '-'
  | none => false

/-- Modelling `ReasoningBuffer` (openrouter.rs lines 130-134). -/
structure ReasoningBuffer where
  text : String := ""
  last_chunk : Option String := none
deriving Repr, DecidableEq

/-- Modelling `ReasoningBuffer::default()`. -/
def ReasoningBuffer.empty : ReasoningBuffer := { text := "", last_chunk := none }

/-- The spacing condition of `ReasoningBuffer::push` (openrouter.rs lines
163-168): a space is inserted iff the buffer is non-empty, neither side
already provides spacing, the chunk does not open with closing
punctuation, and the buffer does not end with a connector. -/
def push_space_cond (buf : ReasoningBuffer) (chunk : String) : Bool :=
  !(buf.text = "") && !(last_has_spacing buf.text)
    && !(chunk_starts_with_space chunk) && !(is_leading_punctuation chunk)
    && !(ends_with_connector buf.text)

/-- Modelling `ReasoningBuffer::push` (openrouter.rs lines 137-177):
whitespace-only chunks and chunks repeating the last accepted normalized
chunk are dropped; otherwise the normalized chunk, with a space prepended
under the spacing rule, is appended to the buffer and returned as the
delta. -/
def ReasoningBuffer.push (buf : ReasoningBuffer) (chunk : String) :
    Option String × ReasoningBuffer :=
  if strTrim chunk = "" then (none, buf)
  else
    let normalized := normalize_chunk chunk
    if normalized = "" then (none, buf)
    else if buf.last_chunk = some normalized then (none, buf)
    else
      let delta := (if push_space_cond buf chunk then " " else "") ++ normalized
      (some delta, { text := buf.text ++ delta, last_chunk := some normalized })

/-- Modelling `ReasoningBuffer::finalize` (openrouter.rs lines 179-186). -/
def ReasoningBuffer.finalizeText (buf : ReasoningBuffer) : Option String :=
  let trimmed := strTrim buf.text
  if trimmed = "" then none else some trimmed

/-- Reachable reasoning-buffer states: the default state and everything
`push` produces from a reachable state. -/
inductive ReasoningBuffer.Reachable : ReasoningBuffer → Prop
  | base : ReasoningBuffer.Reachable ReasoningBuffer.empty
  | step (buf : ReasoningBuffer) (chunk : String) :
      ReasoningBuffer.Reachable buf →
      ReasoningBuffer.Reachable (buf.push chunk).2

/-- Modelling `Value::as_object_mut().is_some()`: whether a JSON value is
an object. -/
def Json.isObj : Json → Bool
  | .obj _ => true
  | _ => false

/-- The assistant-message component of one non-`Completed` loop step of
`prompt_stream_loop`. -/
def stream_step_message (e : LLMStreamEvent) (msg : String) : String :=
  match e with
  | .token d => if d ≠ "" then msg ++ d else msg
  | _ => msg

/-- The sent-updates component of one non-`Completed` loop step of
`prompt_stream_loop`. -/
def stream_step_updates (e : LLMStreamEvent) (ups : List SessionUpdate) : List SessionUpdate :=
  match e with
  | .token d => if d ≠ "" then ups ++ [.agent_message_chunk d] else ups
  | .reasoning d => if d ≠ "" then ups ++ [.agent_thought_chunk d] else ups
  | .completed _ => ups

/-- The specification's wording of the spacing rule, for comparison with
`push_space_cond`: the buffer is non-empty AND the buffer does not end in
whitespace AND the chunk does not start with whitespace AND the chunk does
not begin with one of `, . ! ? : ; ) ] \x7d` AND the buffer does not end
in one of `( [ \x7b / -`. -/
def specSpaceRule (buf : ReasoningBuffer) (chunk : String) : Prop :=
  buf.text ≠ "" ∧
  (∀ c, buf.text.data.getLast? = some c → ¬ c.isWhitespace) ∧
  (∀ c, chunk.data.head? = some c → ¬ c.isWhitespace) ∧
  (∀ c, chunk.data.head? = some c →
    ¬ (c = ',' ∨ c = '.' ∨ c = '!' ∨ c = '?' ∨ c = ':' ∨ c = ';'
        ∨ c = ')' ∨ c = ']' ∨ c = Char.ofNat 125)) ∧
  (∀ c, buf.text.data.getLast? = some c →
    ¬ (c = '(' ∨ c = '[' ∨ c = Char.ofNat 123 ∨ c = '/' ∨ c = '-'))

/-! Theorems settling the claims. -/

/-- Object-map lookup is unaffected by inserting a different key. -/
theorem jLookup_jInsert_ne (fields : List (String × Json)) (k k' : String) (v : Json)
    (h : k ≠ k') : jLookup (jInsert fields k v) k' = jLookup fields k' := by
  induction fields with
  | nil => simp [jInsert, jLookup, h]
  | cons kv rest ih =>
    obtain ⟨k0, v0⟩ := kv
    by_cases hk : k0 = k
    · subst hk
      simp [jInsert, jLookup, h]
    · simp [jInsert, jLookup, hk, ih]

/-- C9: a truncated `read_file` result carries the `[truncated]` marker
only in the client-facing tool content; the payload `content` field holds
the first 32768 characters without the marker, and `truncated` is true
exactly when the original content exceeds 32768 characters. -/
theorem read_file_truncation_spec (content : String) :
    (read_file_parts content).payload_truncated
      = decide (MAX_TOOL_RESPONSE_CHARS < content.length) ∧
    (content.length ≤ MAX_TOOL_RESPONSE_CHARS →
      read_file_parts content = ⟨content, content, false⟩) ∧
    (MAX_TOOL_RESPONSE_CHARS < content.length →
      read_file_parts content =
        ⟨(⟨content.data.take MAX_TOOL_RESPONSE_CHARS⟩ : String) ++ "\n\n[truncated]",
          ⟨content.data.take MAX_TOOL_RESPONSE_CHARS⟩, true⟩) := by
  by_cases h : content.length ≤ MAX_TOOL_RESPONSE_CHARS
  · simp [read_file_parts, truncate_text, h, Nat.not_lt.mpr h]
  · simp [read_file_parts, truncate_text, h, Nat.lt_of_not_le h]

/-- Witness for `read_file_truncation_spec` at a short concrete content. -/
theorem read_file_truncation_spec_witness :
    "hi".length ≤ MAX_TOOL_RESPONSE_CHARS ∧
      read_file_parts "hi" = ⟨"hi", "hi", false⟩ :=
  ⟨by decide, (read_file_truncation_spec "hi").2.1 (by decide)⟩

/-- C10: every `Token` or `Reasoning` event produced from a stream delta's
fragments carries a non-empty delta string. -/
theorem stream_events_nonempty_delta (frags : List StreamFragment) (e : LLMStreamEvent)
    (he : e ∈ emitStreamFragments frags) :
    (∀ s, e = .token s → s ≠ "") ∧ (∀ s, e = .reasoning s → s ≠ "") := by
  unfold emitStreamFragments at he
  rw [List.mem_filterMap] at he
  obtain ⟨f, _, hf⟩ := he
  cases f with
  | content text =>
    by_cases ht : text = "" <;> simp [ht] at hf
    constructor
    · intro s hs
      rw [← hf] at hs
      cases hs
      exact ht
    · intro s hs
      rw [← hf] at hs
      cases hs
  | reasoning text =>
    by_cases ht : text = "" <;> simp [ht] at hf
    constructor
    · intro s hs
      rw [← hf] at hs
      cases hs
    · intro s hs
      rw [← hf] at hs
      cases hs
      exact ht

/-- Witness for `stream_events_nonempty_delta` on a singleton content
fragment. -/
theorem stream_events_nonempty_delta_witness :
    (LLMStreamEvent.token "hi" ∈ emitStreamFragments [.content "hi"]) ∧ "hi" ≠ "" := by
  have hm : LLMStreamEvent.token "hi" ∈ emitStreamFragments [.content "hi"] := by
    simp [emitStreamFragments]
  exact ⟨hm, (stream_events_nonempty_delta [.content "hi"] _ hm).1 "hi" rfl⟩

/-- C8 counterexample: with `scroll_offset = 0` and both max offsets
growing from 0 to 1, the adjustment moves the offset to 1, not 0: an
append while `scroll_offset == 0` does not always keep the view pinned to
the latest line. -/
theorem adjust_scroll_pinned_counterexample :
    adjust_scroll_after_change 0 0 1 = 1 ∧ (1 : Nat) ≠ 0 := by
  constructor
  · decide
  · decide

/-- C8 (amended): while scrolled up within bounds, an append adds the
growth of the max offset to the scroll offset (clamped), which keeps the
visible window anchored; the number of wrapped rows added equals that
growth whenever the transcript already filled the viewport; an append with
`scroll_offset = 0` keeps the view pinned provided the previous max offset
was positive (when it was 0, the offset jumps to the new max). -/
theorem adjust_scroll_preserves_window (offset prevMax newMax : Nat)
    (h0 : 0 < offset) (h1 : offset ≤ prevMax) (h2 : prevMax ≤ newMax) :
    adjust_scroll_after_change offset prevMax newMax = offset + (newMax - prevMax) ∧
    newMax - adjust_scroll_after_change offset prevMax newMax = prevMax - offset ∧
    (∀ total viewport added, viewport ≤ total →
      max_scroll_offset_of (total + added) viewport
        = max_scroll_offset_of total viewport + added) ∧
    (∀ prev next, 0 < prev → prev ≤ next → adjust_scroll_after_change 0 prev next = 0) ∧
    (∀ next, 0 < next → adjust_scroll_after_change 0 0 next = next) := by
  refine ⟨?_, ?_, ?_, ?_, ?_⟩
  · unfold adjust_scroll_after_change enforce_scroll_bounds
    split_ifs <;> omega
  · unfold adjust_scroll_after_change enforce_scroll_bounds
    split_ifs <;> omega
  · intro total viewport added hvp
    unfold max_scroll_offset_of
    omega
  · intro prev next hp hn
    unfold adjust_scroll_after_change enforce_scroll_bounds
    split_ifs <;> omega
  · intro next hn
    unfold adjust_scroll_after_change enforce_scroll_bounds
    split_ifs <;> omega

/-- Witness for `adjust_scroll_preserves_window` at concrete offsets. -/
theorem adjust_scroll_preserves_window_witness :
    (0 < 2 ∧ 2 ≤ 3 ∧ 3 ≤ 5) ∧ adjust_scroll_after_change 2 3 5 = 2 + (5 - 3) :=
  ⟨by omega, (adjust_scroll_preserves_window 2 3 5 (by omega) (by omega) (by omega)).1⟩

/-- C6 counterexample: with a non-empty `recent_errors` queue but a last
message containing the keyword `search`, phase detection returns
`Exploration`, not `Debugging`: the keyword heuristic takes precedence
over recent errors. -/
theorem detect_phase_errors_counterexample :
    detect_phase [⟨"user", "search the repo", 0⟩] [⟨"boom", none, none⟩] .unknown
        = .exploration ∧
      ConversationPhase.exploration ≠ .debugging := by
  constructor
  · decide
  · decide

/-- C6 (amended): a non-empty `recent_errors` queue forces the `Debugging`
phase exactly when the keyword heuristic on the last message detects no
phase. -/
theorem detect_phase_errors_force_debugging (messages : List CuratorMessage)
    (recent_errors : List ErrorContext) (current_phase : ConversationPhase)
    (herr : recent_errors ≠ [])
    (hkw : keyword_phase messages = .unknown) :
    detect_phase messages recent_errors current_phase = .debugging := by
  cases recent_errors with
  | nil => exact absurd rfl herr
  | cons e rest => simp [detect_phase, hkw]

/-- Witness for `detect_phase_errors_force_debugging`: no keyword in the
last message and one recent error. -/
theorem detect_phase_errors_force_debugging_witness :
    ([(⟨"boom", none, none⟩ : ErrorContext)] ≠ []) ∧
      detect_phase [⟨"user", "hello", 0⟩] [⟨"boom", none, none⟩] .unknown = .debugging :=
  ⟨by simp, detect_phase_errors_force_debugging _ _ _ (by simp) (by decide)⟩

/-- C7 counterexample: with no constraints configured for the tool,
non-object arguments are returned unchanged instead of failing; and when
constraints exist, the error text is prefixed with `Error: `. -/
theorem apply_policy_non_object_counterexample :
    apply_policy_constraints none (fun _ => none) tools.LIST_FILES (Json.num 3)
        = .ok (Json.num 3) ∧
      apply_policy_constraints (some { default_response_format := none })
          (fun _ => none) tools.LIST_FILES (Json.num 3)
        = .error "Error: tool arguments must be an object" := by
  constructor
  · rfl
  · rfl

/-- C7 (amended): whenever constraints are configured for the tool and the
arguments are not a JSON object, `apply_policy_constraints` fails with
`Error: tool arguments must be an object`, for every tool name. -/
theorem apply_policy_non_object_error (c : ToolConstraints)
    (parseUrl : String → Option ParsedUrl) (name : String) (args : Json)
    (h : args.isObj = false) :
    apply_policy_constraints (some c) parseUrl name args
      = .error "Error: tool arguments must be an object" := by
  cases args <;> simp_all [Json.isObj, apply_policy_constraints]

/-- Witness for `apply_policy_non_object_error` at a concrete non-object
argument. -/
theorem apply_policy_non_object_error_witness :
    (Json.null.isObj = false) ∧
      apply_policy_constraints (some { default_response_format := none })
          (fun _ => none) "any_tool" Json.null
        = .error "Error: tool arguments must be an object" :=
  ⟨rfl, apply_policy_non_object_error _ _ _ _ rfl⟩

/-- C1 counterexample: a provider stream whose tool-call delta sets the
name to the empty string finalizes to a tool call whose name is empty, so
not every finalized tool call has a non-empty name. -/
theorem finalize_tool_calls_empty_name_counterexample :
    finalize_tool_calls (update_tool_calls []
        [Json.obj [("function", Json.obj [("name", Json.str ""), ("arguments", Json.str "x")])]])
      = some [{ id := "tool_call_0", name := "", arguments := "x" }] ∧
    ({ id := "tool_call_0", name := "", arguments := "x" } : ToolCall).name = "" := by
  constructor
  · rfl
  · rfl

/-- C1 (amended): every tool call in a finalized response stems from a
builder whose name was set (builders with no name are dropped, so the
response is never an empty list); the id defaults to `tool_call_<index>`
at the builder's index when unset; empty accumulated arguments serialize
to `"\x7b\x7d"` and non-empty ones are passed through. -/
theorem finalize_tool_calls_spec (builders : List ToolCallBuilder) (calls : List ToolCall)
    (h : finalize_tool_calls builders = some calls) :
    (∀ (b : ToolCallBuilder) (i : Nat), b.name = none → b.finalize i = none) ∧
    calls ≠ [] ∧
    ∀ call ∈ calls, ∃ i b, (i, b) ∈ builders.enum ∧
      b.name = some call.name ∧
      call.id = (match b.id with
        | some s => s
        | none => "tool_call_" ++ toString i) ∧
      call.arguments = (if b.arguments = "" then "\x7b\x7d" else b.arguments) := by
  have hdef : finalize_tool_calls builders =
      (if (builders.enum.filterMap (fun p => p.2.finalize p.1)).isEmpty then none
        else some (builders.enum.filterMap (fun p => p.2.finalize p.1))) := rfl
  rw [hdef] at h
  refine ⟨?_, ?_, ?_⟩
  · intro b i hb
    simp [ToolCallBuilder.finalize, hb]
  · intro hnil
    rw [hnil] at h
    split at h
    · exact Option.noConfusion h
    · rename_i hne
      have hl := Option.some.inj h
      rw [hl] at hne
      simp at hne
  · intro call hcall
    split at h
    · exact Option.noConfusion h
    · have hl := Option.some.inj h
      rw [← hl] at hcall
      rw [List.mem_filterMap] at hcall
      obtain ⟨⟨i, b⟩, hmem, hfin⟩ := hcall
      refine ⟨i, b, hmem, ?_⟩
      cases hbn : b.name with
      | none => simp [ToolCallBuilder.finalize, hbn] at hfin
      | some nm =>
        simp [ToolCallBuilder.finalize, hbn] at hfin
        rw [← hfin]
        exact ⟨rfl, rfl, rfl⟩

/-- Witness for `finalize_tool_calls_spec` at a builder with a set name,
no id and empty arguments. -/
theorem finalize_tool_calls_spec_witness :
    finalize_tool_calls [⟨none, some "list_files", ""⟩]
        = some [⟨"tool_call_0", "list_files", "\x7b\x7d"⟩] ∧
      [(⟨"tool_call_0", "list_files", "\x7b\x7d"⟩ : ToolCall)] ≠ [] :=
  ⟨by rfl, (finalize_tool_calls_spec [⟨none, some "list_files", ""⟩] _ (by rfl)).2.1⟩

/-- C3: for each tool with a configured numeric cap (`list_files`,
`grep_search`, `read_file`, `curl`), a requested value above the cap is
replaced by exactly the cap together with a `_policy_note`, and a
requested value at or below the cap leaves the arguments untouched with no
note. -/
theorem apply_policy_numeric_caps (c : ToolConstraints)
    (parseUrl : String → Option ParsedUrl) (fields : List (String × Json))
    (cap r : Nat) (u : String) (pu : ParsedUrl)
    (hfmt : c.default_response_format = none)
    (hmode : c.allowed_modes = none) :
    (c.max_items_per_call = some cap →
      jLookup fields "max_items" = some (.num (Int.ofNat r)) →
      (cap < r →
        apply_policy_constraints (some c) parseUrl tools.LIST_FILES (.obj fields)
          = .ok (.obj (jInsert (jInsert fields "max_items" (.num cap)) "_policy_note"
              (.str ("Capped max_items to " ++ toString cap ++ " by policy"))))) ∧
      (r ≤ cap →
        apply_policy_constraints (some c) parseUrl tools.LIST_FILES (.obj fields)
          = .ok (.obj fields))) ∧
    (c.max_results_per_call = some cap →
      jLookup fields "max_results" = some (.num (Int.ofNat r)) →
      (cap < r →
        apply_policy_constraints (some c) parseUrl tools.GREP_SEARCH (.obj fields)
          = .ok (.obj (jInsert (jInsert fields "max_results" (.num cap)) "_policy_note"
              (.str ("Capped max_results to " ++ toString cap ++ " by policy"))))) ∧
      (r ≤ cap →
        apply_policy_constraints (some c) parseUrl tools.GREP_SEARCH (.obj fields)
          = .ok (.obj fields))) ∧
    (c.max_bytes_per_read = some cap →
      jLookup fields "max_bytes" = some (.num (Int.ofNat r)) →
      (cap < r →
        apply_policy_constraints (some c) parseUrl tools.READ_FILE (.obj fields)
          = .ok (.obj (jInsert (jInsert fields "max_bytes" (.num cap)) "_policy_note"
              (.str ("Capped max_bytes to " ++ toString cap ++ " by policy"))))) ∧
      (r ≤ cap →
        apply_policy_constraints (some c) parseUrl tools.READ_FILE (.obj fields)
          = .ok (.obj fields))) ∧
    (c.max_response_bytes = some cap →
      c.allowed_url_schemes = none →
      c.denied_url_hosts = none →
      jLookup fields "max_bytes" = some (.num (Int.ofNat r)) →
      jLookup fields "url" = some (.str u) →
      parseUrl u = some pu →
      (cap < r →
        apply_policy_constraints (some c) parseUrl tools.CURL (.obj fields)
          = .ok (.obj (jInsert (jInsert fields "max_bytes" (.num cap)) "_policy_note"
              (.str ("Capped max_bytes to " ++ toString cap ++ " bytes by policy"))))) ∧
      (r ≤ cap →
        apply_policy_constraints (some c) parseUrl tools.CURL (.obj fields)
          = .ok (.obj fields))) := by
  refine ⟨?_, ?_, ?_, ?_⟩
  · intro hcap hlook
    constructor
    · intro hlt
      simp [apply_policy_constraints, hfmt, hmode, hcap, capNumericArg, hlook,
        Json.asU64, hlt]
    · intro hle
      simp [apply_policy_constraints, hfmt, hmode, hcap, capNumericArg, hlook,
        Json.asU64, Nat.not_lt.mpr hle]
  · intro hcap hlook
    constructor
    · intro hlt
      simp [apply_policy_constraints, hfmt, hmode, hcap, capNumericArg, hlook,
        Json.asU64, hlt, tools.GREP_SEARCH, tools.LIST_FILES]
    · intro hle
      simp [apply_policy_constraints, hfmt, hmode, hcap, capNumericArg, hlook,
        Json.asU64, Nat.not_lt.mpr hle, tools.GREP_SEARCH, tools.LIST_FILES]
  · intro hcap hlook
    constructor
    · intro hlt
      simp [apply_policy_constraints, hfmt, hmode, hcap, capNumericArg, hlook,
        Json.asU64, hlt, tools.READ_FILE, tools.LIST_FILES, tools.GREP_SEARCH]
    · intro hle
      simp [apply_policy_constraints, hfmt, hmode, hcap, capNumericArg, hlook,
        Json.asU64, Nat.not_lt.mpr hle, tools.READ_FILE, tools.LIST_FILES, tools.GREP_SEARCH]
  · intro hcap hschemes hhosts hlook hurl hpu
    constructor
    · intro hlt
      simp [apply_policy_constraints, hfmt, hmode, hcap, capNumericArg, hlook,
        Json.asU64, Json.asStr, hlt, tools.CURL, tools.LIST_FILES, tools.GREP_SEARCH,
        tools.READ_FILE, jLookup_jInsert_ne _ "_policy_note" "url" _ (by decide),
        jLookup_jInsert_ne _ "max_bytes" "url" _ (by decide), hurl, hpu,
        checkCurlUrl, checkCurlUrl.checkCurlDeniedHosts, hschemes, hhosts]
    · intro hle
      simp [apply_policy_constraints, hfmt, hmode, hcap, capNumericArg, hlook,
        Json.asU64, Json.asStr, Nat.not_lt.mpr hle, tools.CURL, tools.LIST_FILES,
        tools.GREP_SEARCH, tools.READ_FILE, hurl, hpu,
        checkCurlUrl, checkCurlUrl.checkCurlDeniedHosts, hschemes, hhosts]

/-- Witness for `apply_policy_numeric_caps`: a `list_files` request of 7
against a cap of 5 is clamped with a policy note. -/
theorem apply_policy_numeric_caps_witness :
    apply_policy_constraints (some { max_items_per_call := some 5 }) (fun _ => none)
        tools.LIST_FILES (.obj [("max_items", .num 7)])
      = .ok (.obj [("max_items", .num 5),
          ("_policy_note", .str "Capped max_items to 5 by policy")]) := by
  have h := ((apply_policy_numeric_caps { max_items_per_call := some 5 } (fun _ => none)
      [("max_items", .num 7)] 5 7 "" ⟨"", none⟩ rfl rfl).1 rfl rfl).1 (by omega)
  exact h.trans (by rfl)

/-- C4: the curl URL policy passes `https://api.example.com` and blocks
`svc.internal` with the exact policy message under
`allowed_url_schemes = ["https"]` and `denied_url_hosts = [".internal"]`;
in general a dot-pattern blocks exactly the lowercased hosts that end with
the lowercased pattern, a bare pattern blocks exact or dotted-suffix
matches, and the scheme check is ASCII case-insensitive. -/
theorem apply_policy_url_checks (parseUrl : String → Option ParsedUrl) :
    (parseUrl "https://api.example.com" = some ⟨"https", some "api.example.com"⟩ →
      apply_policy_constraints
          (some { allowed_url_schemes := some ["https"], denied_url_hosts := some [".internal"] })
          parseUrl tools.CURL (.obj [("url", .str "https://api.example.com")])
        = .ok (.obj [("url", .str "https://api.example.com")])) ∧
    (parseUrl "https://svc.internal" = some ⟨"https", some "svc.internal"⟩ →
      apply_policy_constraints
          (some { allowed_url_schemes := some ["https"], denied_url_hosts := some [".internal"] })
          parseUrl tools.CURL (.obj [("url", .str "https://svc.internal")])
        = .error "URL host 'svc.internal' is blocked by policy") ∧
    (∀ pattern host, strStartsWith (strToLower pattern) "." = true →
      (hostBlocked [pattern] (strToLower host) = true ↔
        strEndsWith (strToLower host) (strToLower pattern) = true)) ∧
    (∀ pattern host, strStartsWith (strToLower pattern) "." = false →
      (hostBlocked [pattern] (strToLower host) = true ↔
        (strToLower host = strToLower pattern ∨
          strEndsWith (strToLower host) ("." ++ strToLower pattern) = true))) ∧
    (∀ (allowed : List String) (scheme : String),
      allowed.any (fun candidate => eqIgnoreAsciiCase candidate scheme) = true ↔
        ∃ candidate ∈ allowed, strToLower candidate = strToLower scheme) := by
  refine ⟨?_, ?_, ?_, ?_, ?_⟩
  · intro hpu
    simp [apply_policy_constraints, tools.CURL, tools.LIST_FILES, tools.GREP_SEARCH,
      tools.READ_FILE, jLookup, Json.asStr, hpu, checkCurlUrl,
      checkCurlUrl.checkCurlDeniedHosts, eqIgnoreAsciiCase, hostBlocked,
      strToLower, strStartsWith, strEndsWith]
    decide
  · intro hpu
    simp [apply_policy_constraints, tools.CURL, tools.LIST_FILES, tools.GREP_SEARCH,
      tools.READ_FILE, jLookup, Json.asStr, hpu, checkCurlUrl,
      checkCurlUrl.checkCurlDeniedHosts, eqIgnoreAsciiCase, hostBlocked,
      strToLower, strStartsWith, strEndsWith]
    decide
  · intro pattern host hdot
    simp [hostBlocked, hdot]
  · intro pattern host hdot
    simp [hostBlocked, hdot]
  · intro allowed scheme
    simp [eqIgnoreAsciiCase, List.any_eq_true]

/-- Witness for `apply_policy_url_checks`: the passing host under a
concrete URL parser. -/
theorem apply_policy_url_checks_witness :
    apply_policy_constraints
        (some { allowed_url_schemes := some ["https"], denied_url_hosts := some [".internal"] })
        (fun s => if s = "https://api.example.com"
          then some ⟨"https", some "api.example.com"⟩ else none)
        tools.CURL (.obj [("url", .str "https://api.example.com")])
      = .ok (.obj [("url", .str "https://api.example.com")]) :=
  (apply_policy_url_checks _).1 (by simp)

/-- One non-`Completed` step of the prompt stream loop with a clear cancel
flag advances the index and applies the step functions. -/
theorem prompt_stream_loop_step (cancel : Nat → Bool) (e : LLMStreamEvent)
    (rest : List LLMStreamEvent) (i : Nat) (msg : String) (ups : List SessionUpdate)
    (hc : cancel i = false) (hnc : e.isCompleted = false) :
    prompt_stream_loop cancel (e :: rest) i msg ups
      = prompt_stream_loop cancel rest (i + 1)
          (stream_step_message e msg) (stream_step_updates e ups) := by
  cases e with
  | token d =>
    by_cases hd : d = "" <;>
      simp [prompt_stream_loop, hc, hd, stream_step_message, stream_step_updates]
  | reasoning d =>
    by_cases hd : d = "" <;>
      simp [prompt_stream_loop, hc, hd, stream_step_message, stream_step_updates]
  | completed response => simp [LLMStreamEvent.isCompleted] at hnc

/-- The prompt stream loop on a cancel-free, `Completed`-free prefix agrees
with the cancel-free loop on that prefix and continues on the tail at the
shifted index. -/
theorem prompt_stream_loop_prefix (cancel : Nat → Bool) (pre : List LLMStreamEvent) :
    ∀ (i : Nat) (msg : String) (ups : List SessionUpdate),
      (∀ j, j < pre.length → cancel (i + j) = false) →
      (∀ ev ∈ pre, ev.isCompleted = false) →
      ∀ (tail : List LLMStreamEvent),
        prompt_stream_loop cancel (pre ++ tail) i msg ups
          = prompt_stream_loop cancel tail (i + pre.length)
              (prompt_stream_loop (fun _ => false) pre i msg ups).2.2
              (prompt_stream_loop (fun _ => false) pre i msg ups).1 := by
  induction pre with
  | nil =>
    intro i msg ups _ _ tail
    simp [prompt_stream_loop]
  | cons a pre ih =>
    intro i msg ups hpre hnc tail
    have hci : cancel i = false := by simpa using hpre 0 (Nat.succ_pos _)
    have hpre' : ∀ j, j < pre.length → cancel ((i + 1) + j) = false := by
      intro j hj
      have h := hpre (j + 1) (by simpa using Nat.succ_lt_succ hj)
      have heq : i + (j + 1) = (i + 1) + j := by omega
      rwa [heq] at h
    have hnc' : ∀ ev ∈ pre, ev.isCompleted = false :=
      fun ev hev => hnc ev (List.mem_cons_of_mem _ hev)
    have hnca : a.isCompleted = false := hnc a (List.mem_cons_self a pre)
    rw [List.cons_append,
      prompt_stream_loop_step cancel a (pre ++ tail) i msg ups hci hnca,
      prompt_stream_loop_step (fun _ => false) a pre i msg ups rfl hnca,
      ih (i + 1) (stream_step_message a msg) (stream_step_updates a ups) hpre' hnc' tail,
      show (i + 1) + pre.length = i + (a :: pre).length by simp; omega]

/-- The prompt stream loop returns immediately with `Cancelled` when the
flag is set and another event arrives. -/
theorem prompt_stream_loop_cancel_now (cancel : Nat → Bool) (e : LLMStreamEvent)
    (rest : List LLMStreamEvent) (i : Nat) (msg : String) (ups : List SessionUpdate)
    (h : cancel i = true) :
    prompt_stream_loop cancel (e :: rest) i msg ups = (ups, .cancelled, msg) := by
  simp [prompt_stream_loop, h]

/-- C5: in the streaming branch of `prompt`, if the cancel flag is set
before the next stream event is processed, no further message or thought
chunks are emitted, the stop reason is `Cancelled`, and the partial
assistant text is not appended to the session history. -/
theorem prompt_streaming_cancelled (cancel : Nat → Bool) (pre : List LLMStreamEvent)
    (e : LLMStreamEvent) (rest : List LLMStreamEvent)
    (hpre : ∀ j, j < pre.length → cancel j = false)
    (hcancel : cancel pre.length = true)
    (hnc : ∀ ev ∈ pre, ev.isCompleted = false) :
    prompt_streaming cancel (pre ++ e :: rest) =
      { updates := (prompt_stream_loop (fun _ => false) pre 0 "" []).1
        stop_reason := .cancelled
        assistant_message := (prompt_stream_loop (fun _ => false) pre 0 "" []).2.2
        appended_to_history := false } := by
  have hsplit := prompt_stream_loop_prefix cancel pre 0 "" []
    (by intro j hj; simpa using hpre j hj) hnc (e :: rest)
  have hzero : (0 : Nat) + pre.length = pre.length := by omega
  rw [hzero] at hsplit
  rw [prompt_stream_loop_cancel_now cancel e rest pre.length _ _ hcancel] at hsplit
  simp [prompt_streaming, hsplit]

/-- Witness for `prompt_streaming_cancelled`: one token arrives, then the
flag is set; the second token is never emitted and the message is not
appended. -/
theorem prompt_streaming_cancelled_witness :
    prompt_streaming (fun i => decide (1 ≤ i))
        [LLMStreamEvent.token "Hi", LLMStreamEvent.token " there"] =
      { updates := [SessionUpdate.agent_message_chunk "Hi"]
        stop_reason := .cancelled
        assistant_message := "Hi"
        appended_to_history := false } := by
  have h := prompt_streaming_cancelled (fun i => decide (1 ≤ i))
    [LLMStreamEvent.token "Hi"] (LLMStreamEvent.token " there") []
    (by decide) (by decide) (by decide)
  exact h.trans (by rfl)

/-- Deduplication in `ReasoningBuffer::push`: a chunk whose normalized form
matches the last accepted chunk is dropped and the buffer is unchanged. -/
theorem reasoning_push_dedup (buf : ReasoningBuffer) (chunk : String)
    (h : buf.last_chunk = some (normalize_chunk chunk)) :
    buf.push chunk = (none, buf) := by
  by_cases h1 : strTrim chunk = ""
  · simp [ReasoningBuffer.push, h1]
  · by_cases h2 : normalize_chunk chunk = ""
    · simp [ReasoningBuffer.push, h1, h2]
    · simp [ReasoningBuffer.push, h1, h2, h]

/-- Inversion of a successful `ReasoningBuffer::push`: the delta is the
normalized chunk with a space prepended under `push_space_cond`, and the
new state appends the delta and records the normalized chunk. -/
theorem reasoning_push_some_inv (buf buf' : ReasoningBuffer) (chunk d : String)
    (h : buf.push chunk = (some d, buf')) :
    normalize_chunk chunk ≠ "" ∧
    d = (if push_space_cond buf chunk then " " else "") ++ normalize_chunk chunk ∧
    buf' = { text := buf.text ++ d, last_chunk := some (normalize_chunk chunk) } := by
  by_cases h1 : strTrim chunk = ""
  · simp [ReasoningBuffer.push, h1] at h
  · by_cases h2 : normalize_chunk chunk = ""
    · simp [ReasoningBuffer.push, h1, h2] at h
    · by_cases h3 : buf.last_chunk = some (normalize_chunk chunk)
      · simp [ReasoningBuffer.push, h1, h2, h3] at h
      · simp [ReasoningBuffer.push, h1, h2, h3] at h
        obtain ⟨hd, hb⟩ := h
        exact ⟨h2, hd.symm, by rw [← hb, hd]⟩

/-- Every character of every word produced by `splitWsAux` is
non-whitespace, provided the accumulator holds only non-whitespace
characters. -/
theorem splitWsAux_nonws (cs : List Char) :
    ∀ (acc : List Char), (∀ c ∈ acc, ¬ c.isWhitespace = true) →
      ∀ p ∈ splitWsAux cs acc, ∀ c ∈ p, ¬ c.isWhitespace = true := by
  induction cs with
  | nil =>
    intro acc hacc p hp c hc
    by_cases hae : acc.isEmpty
    · simp [splitWsAux, hae] at hp
    · simp [splitWsAux, hae] at hp
      subst hp
      exact hacc c (List.mem_reverse.mp hc)
  | cons a cs ih =>
    intro acc hacc p hp c hc
    by_cases haw : a.isWhitespace
    · by_cases hae : acc.isEmpty
      · rw [splitWsAux, if_pos haw, if_pos hae] at hp
        exact ih [] (by simp) p hp c hc
      · rw [splitWsAux, if_pos haw, if_neg hae] at hp
        rcases List.mem_cons.mp hp with hp | hp
        · subst hp
          exact hacc c (List.mem_reverse.mp hc)
        · exact ih [] (by simp) p hp c hc
    · rw [splitWsAux, if_neg haw] at hp
      refine ih (a :: acc) ?_ p hp c hc
      intro x hx
      rcases List.mem_cons.mp hx with rfl | hx
      · exact haw
      · exact hacc x hx

/-- Any whitespace character of the space-joined word list is the inserted
single space. -/
theorem joinSpaceParts_ws (parts : List (List Char))
    (hp : ∀ p ∈ parts, ∀ c ∈ p, ¬ c.isWhitespace = true) :
    ∀ c ∈ joinSpaceParts parts, c.isWhitespace = true → c = ' ' := by
  induction parts with
  | nil =>
    intro c hc
    simp [joinSpaceParts] at hc
  | cons p rest ih =>
    cases rest with
    | nil =>
      intro c hc hw
      rw [joinSpaceParts] at hc
      exact absurd hw (hp p (by simp) c hc)
    | cons q rest2 =>
      intro c hc hw
      rw [joinSpaceParts] at hc
      rcases List.mem_append.mp hc with hc | hc
      · exact absurd hw (hp p (by simp) c hc)
      · rcases List.mem_cons.mp hc with rfl | hc
        · rfl
        · exact ih (fun r hr => hp r (List.mem_cons_of_mem _ hr)) c hc hw

/-- Whitespace inside a normalized chunk is only the single space used to
join words. -/
theorem normalize_chunk_ws (chunk : String) :
    ∀ c ∈ (normalize_chunk chunk).data, c.isWhitespace = true → c = ' ' := by
  intro c hc hw
  exact joinSpaceParts_ws _
    (fun p hp => splitWsAux_nonws chunk.data [] (by simp) p hp) c hc hw

/-- Invariant of reachable reasoning buffers: any whitespace character in
the accumulated text is a plain space. -/
theorem reasoning_reachable_ws (buf : ReasoningBuffer) (h : buf.Reachable) :
    ∀ c ∈ buf.text.data, c.isWhitespace = true → c = ' ' := by
  induction h with
  | base =>
    intro c hc
    simp [ReasoningBuffer.empty] at hc
  | step buf chunk hr ih =>
    by_cases h1 : strTrim chunk = ""
    · simpa [ReasoningBuffer.push, h1] using ih
    · by_cases h2 : normalize_chunk chunk = ""
      · simpa [ReasoningBuffer.push, h1, h2] using ih
      · by_cases h3 : buf.last_chunk = some (normalize_chunk chunk)
        · simpa [ReasoningBuffer.push, h1, h2, h3] using ih
        · intro c hc hw
          simp only [ReasoningBuffer.push, h1, h2, h3, if_false, if_neg,
            String.data_append] at hc
          rcases List.mem_append.mp hc with hc | hc
          · exact ih c hc hw
          · rcases List.mem_append.mp hc with hc | hc
            · by_cases hcond : push_space_cond buf chunk <;> simp [hcond] at hc
              subst hc
              rfl
            · exact normalize_chunk_ws chunk c hc hw

/-- On buffers whose text satisfies the whitespace invariant, the code's
spacing condition coincides with the specification's wording. -/
theorem push_space_cond_iff (buf : ReasoningBuffer) (chunk : String)
    (hinv : ∀ c ∈ buf.text.data, c.isWhitespace = true → c = ' ') :
    push_space_cond buf chunk = true ↔ specSpaceRule buf chunk := by
  rw [specSpaceRule]
  simp only [push_space_cond, Bool.and_eq_true, Bool.not_eq_true',
    decide_eq_false_iff_not, and_assoc]
  constructor
  · rintro ⟨hne, hsp, hws, hpunct, hconn⟩
    refine ⟨hne, ?_, ?_, ?_, ?_⟩
    · intro c hc hw
      have hmem := List.mem_of_getLast?_eq_some hc
      have hsp' := hsp
      rw [last_has_spacing, hc] at hsp'
      rw [hinv c hmem hw] at hsp'
      simp at hsp'
    · intro c hc hw
      rw [chunk_starts_with_space, hc] at hws
      simp [hw] at hws
    · intro c hc hcon
      have hcw : c.isWhitespace = false := by
        rw [chunk_starts_with_space, hc] at hws
        simpa using hws
      have hfind : chunk.data.find? (fun x => !x.isWhitespace) = some c := by
        cases hd : chunk.data with
        | nil => rw [hd] at hc; exact Option.noConfusion hc
        | cons a l =>
          rw [hd] at hc
          have ha : a = c := by simpa using hc
          subst ha
          exact List.find?_cons_of_pos _ (by simp [hcw])
      rw [is_leading_punctuation, hfind] at hpunct
      rcases hcon with h | h | h | h | h | h | h | h | h <;> rw [h] at hpunct <;>
        simp at hpunct
    · intro c hc hcon
      have hcw : c.isWhitespace = false := by
        by_cases hw : c.isWhitespace = true
        · have hmem := List.mem_of_getLast?_eq_some hc
          have hsp' := hsp
          rw [last_has_spacing, hc] at hsp'
          rw [hinv c hmem hw] at hsp'
          simp at hsp'
        · exact Bool.eq_false_iff.mpr hw
      have hrev : buf.text.data.reverse.find? (fun x => !x.isWhitespace) = some c := by
        cases hr : buf.text.data.reverse with
        | nil =>
          rw [List.getLast?_eq_head?_reverse, hr] at hc
          exact Option.noConfusion hc
        | cons a l =>
          rw [List.getLast?_eq_head?_reverse, hr] at hc
          have ha : a = c := by simpa using hc
          subst ha
          exact List.find?_cons_of_pos _ (by simp [hcw])
      rw [ends_with_connector, hrev] at hconn
      rcases hcon with h | h | h | h | h <;> rw [h] at hconn <;> simp at hconn
  · rintro ⟨hne, hlast, hhead, hpunct, hconn⟩
    refine ⟨hne, ?_, ?_, ?_, ?_⟩
    · rw [last_has_spacing]
      cases hl : buf.text.data.getLast? with
      | none => rfl
      | some c =>
        have hcw := hlast c hl
        simp only [Bool.or_eq_false_iff, decide_eq_false_iff_not]
        constructor
        · intro he
          exact hcw (by rw [he]; decide)
        · intro he
          exact hcw (by rw [he]; decide)
    · rw [chunk_starts_with_space]
      cases hh : chunk.data.head? with
      | none => rfl
      | some c => exact Bool.eq_false_iff.mpr (hhead c hh)
    · rw [is_leading_punctuation]
      cases hf : chunk.data.find? (fun x => !x.isWhitespace) with
      | none => rfl
      | some c =>
        cases hd : chunk.data with
        | nil => rw [hd] at hf; exact Option.noConfusion hf
        | cons a l =>
          have hanw := hhead a (by rw [hd]; rfl)
          have haf : a.isWhitespace = false := Bool.eq_false_iff.mpr hanw
          rw [hd, List.find?_cons_of_pos _ (by simp [haf])] at hf
          have hac : a = c := by simpa using hf
          subst hac
          have hp := hpunct a (by rw [hd]; rfl)
          simp only [Bool.or_eq_false_iff, decide_eq_false_iff_not]
          refine ⟨⟨⟨⟨⟨⟨⟨⟨?_, ?_⟩, ?_⟩, ?_⟩, ?_⟩, ?_⟩, ?_⟩, ?_⟩, ?_⟩ <;>
            intro he <;> exact hp (by simp [he])
    · rw [ends_with_connector]
      cases hf : buf.text.data.reverse.find? (fun x => !x.isWhitespace) with
      | none => rfl
      | some c =>
        cases hr : buf.text.data.reverse with
        | nil => rw [hr] at hf; exact Option.noConfusion hf
        | cons a l =>
          have hal : buf.text.data.getLast? = some a := by
            rw [List.getLast?_eq_head?_reverse, hr]; rfl
          have hanw := hlast a hal
          have haf : a.isWhitespace = false := Bool.eq_false_iff.mpr hanw
          rw [hr, List.find?_cons_of_pos _ (by simp [haf])] at hf
          have hac : a = c := by simpa using hf
          subst hac
          have hp := hconn a hal
          simp only [Bool.or_eq_false_iff, decide_eq_false_iff_not]
          refine ⟨⟨⟨⟨?_, ?_⟩, ?_⟩, ?_⟩, ?_⟩ <;> intro he <;> exact hp (by simp [he])

/-- C2: pushing a chunk whose normalized form equals the last accepted
chunk is a no-op, so the same chunk twice emits exactly one delta and the
buffer holds the normalized chunk once; pushing `"Hello"` then `","` gives
buffer `"Hello,"`; and on reachable buffers a single space is prepended to
an accepted delta exactly under the spec's spacing rule. -/
theorem reasoning_buffer_push_spec :
    (∀ (buf : ReasoningBuffer) (chunk : String),
        buf.last_chunk = some (normalize_chunk chunk) → buf.push chunk = (none, buf)) ∧
    (∀ (buf buf' : ReasoningBuffer) (chunk d : String),
        buf.push chunk = (some d, buf') → buf'.push chunk = (none, buf')) ∧
    (∀ (chunk d : String) (st : ReasoningBuffer),
        ReasoningBuffer.empty.push chunk = (some d, st) →
        d = normalize_chunk chunk ∧ st.text = normalize_chunk chunk ∧
          st.push chunk = (none, st)) ∧
    (ReasoningBuffer.empty.push "Hello").2.push ","
      = (some ",", { text := "Hello,", last_chunk := some "," }) ∧
    (∀ (buf buf' : ReasoningBuffer) (chunk d : String),
        buf.Reachable → buf.push chunk = (some d, buf') →
        (d = " " ++ normalize_chunk chunk ↔ specSpaceRule buf chunk)) := by
  refine ⟨reasoning_push_dedup, ?_, ?_, by decide, ?_⟩
  · intro buf buf' chunk d h
    obtain ⟨hn, hd, hb⟩ := reasoning_push_some_inv buf buf' chunk d h
    apply reasoning_push_dedup
    rw [hb]
  · intro chunk d st h
    obtain ⟨hn, hd, hb⟩ := reasoning_push_some_inv _ _ _ _ h
    have hcond : push_space_cond ReasoningBuffer.empty chunk = false := by
      simp [push_space_cond, ReasoningBuffer.empty]
    rw [hcond] at hd
    have hd' : d = normalize_chunk chunk := by
      rw [hd]; rfl
    refine ⟨hd', ?_, ?_⟩
    · rw [hb, hd']
      rfl
    · apply reasoning_push_dedup
      rw [hb]
  · intro buf buf' chunk d hr h
    obtain ⟨hn, hd, hb⟩ := reasoning_push_some_inv _ _ _ _ h
    rw [← push_space_cond_iff buf chunk (reasoning_reachable_ws buf hr)]
    constructor
    · intro hds
      by_cases hc : push_space_cond buf chunk = true
      · exact hc
      · exfalso
        have hcf : push_space_cond buf chunk = false := Bool.eq_false_iff.mpr hc
        rw [hcf] at hd
        have hd' : d = normalize_chunk chunk := by rw [hd]; rfl
        rw [hd'] at hds
        have hlen := congrArg (fun s => s.data.length) hds
        simp [String.data_append] at hlen
    · intro hc
      rw [hd, hc]
      simp

/-- Witness for `reasoning_buffer_push_spec`: re-pushing the recorded
chunk is dropped. -/
theorem reasoning_buffer_push_spec_witness :
    ReasoningBuffer.push { text := "Hello", last_chunk := some "Hello" } "Hello"
      = (none, { text := "Hello", last_chunk := some "Hello" }) :=
  reasoning_buffer_push_spec.1 _ "Hello" (by decide)
